import Mathlib

/-!
Shallow embedding of the core of the `memory-grid` walking memory-path game
(PathGenerator, TileTrigger latch, GridManager tile state, PlayerTracker
step validator, GameStateManager level setup), together with theorems that
settle the specification claims about it.

Conventions of the embedding:
* JS numbers used as grid coordinates, sizes and levels are embedded as `Int`
  (all claim-relevant arithmetic on them is integral); geometric lengths in
  the coordinate mapping are embedded as `ℚ`.
* `Math.random()`-driven choices are embedded as a stream of natural numbers
  (`Rand`): each consumption reads the next stream value, and a bounded
  choice from `n` alternatives reads the value modulo `n`.  The theorems
  about random code quantify over every stream.
* Callback invocations (events) are returned as an explicit trace list.
-/

namespace MemoryGrid

/-- A grid coordinate `{x, z}` as used throughout the scripts. -/
structure GridPos where
  x : Int
  z : Int
deriving DecidableEq, Repr

/-- MathHelpers.isValidGridPosition: bounds check against the grid. -/
def isValidGridPosition (gridX gridZ rows columns : Int) : Bool :=
  0 ≤ gridX && gridX < columns && 0 ≤ gridZ && gridZ < rows

/-- MathHelpers.isSameGridPosition: `null`/`undefined` arguments compare false. -/
def isSameGridPosition : Option GridPos → Option GridPos → Bool
  | some a, some b => decide (a.x = b.x) && decide (a.z = b.z)
  | _, _ => false

/-- MathHelpers.getNeighbors: the in-bounds orthogonal neighbours, in the
source's up/down/left/right order. -/
def getNeighbors (gridX gridZ rows columns : Int) : List GridPos :=
  ([⟨0, 1⟩, ⟨0, -1⟩, ⟨-1, 0⟩, ⟨1, 0⟩] : List GridPos).filterMap fun d =>
    let newX := gridX + d.x
    let newZ := gridZ + d.z
    if isValidGridPosition newX newZ rows columns then some ⟨newX, newZ⟩ else none

/-- Manhattan distance between two grid coordinates. -/
def manhattan (a b : GridPos) : Nat :=
  (a.x - b.x).natAbs + (a.z - b.z).natAbs

/-- The pseudo-random source: a stream of naturals plus a read position.
Each `Math.random()` consumption advances the position by one. -/
structure Rand where
  stream : Nat → Nat
  pos : Nat

/-- Reads the next raw random value. -/
def Rand.next (r : Rand) : Nat × Rand :=
  (r.stream r.pos, ⟨r.stream, r.pos + 1⟩)

/-- MathHelpers.randomInt(min, max) (inclusive), driven by one raw stream
value: `Math.floor(Math.random() * (max - min + 1)) + min` produces exactly
the values `min..max`, embedded as the stream value reduced mod the range. -/
def randomInt (lo hi : Int) (v : Nat) : Int :=
  lo + (v : Int) % (hi - lo + 1)

/-! ## PlayerTracker: tracking state and step validation -/

/-- One callback invocation made by PlayerTracker while handling a tile
entry: the `onTileExited` / `onTileEntered` callbacks, the
`GridManager.markTileCorrect` / `markTileWrong` commands, and the
`onCorrectStep` / `onWrongStep` / `onPathCompleted` step events.
`wrongStep` carries the actual tile then the expected tile (which is
`undefined`, here `none`, when `pathProgress` indexes past the path). -/
inductive TraceEv where
  | tileExited (pos : GridPos)
  | tileEntered (pos : GridPos)
  | markCorrect (pos : GridPos)
  | markWrong (pos : GridPos)
  | correctStep (pos : GridPos) (progress total : Nat)
  | wrongStep (actual : GridPos) (expected : Option GridPos)
  | pathCompleted (steps : List GridPos)
deriving DecidableEq, Repr

/-- PlayerTracker's `trackingState` object. -/
structure TrackingState where
  isTracking : Bool
  currentTile : Option GridPos
  pathProgress : Nat
  stepsOnPath : List GridPos
deriving DecidableEq, Repr

/-- The state installed by PlayerTracker.startTracking() (which also resets
the tile trigger latches, modelled separately). -/
def startTrackingState : TrackingState :=
  { isTracking := true, currentTile := none, pathProgress := 0, stepsOnPath := [] }

/-- PlayerTracker.validateStep: validates a stepped-on tile against the
active `path`; `skipPathCheck` is `Constants.DebugConfig.SKIP_PATH_CHECK`.
Returns the updated tracking state and the trace of callbacks fired.
Sound playback has no game-state effect and is not modelled. -/
def validateStep (path : List GridPos) (skipPathCheck : Bool) (s : TrackingState)
    (gridPos : GridPos) : TrackingState × List TraceEv :=
  if path.length = 0 then (s, [])
  else if skipPathCheck then
    -- Debug mode: any tile counts; the end tile completes the level.
    let endPos := path.getLast?
    let s1 := { s with stepsOnPath := s.stepsOnPath ++ [gridPos] }
    if isSameGridPosition (some gridPos) endPos then
      let s2 := { s1 with pathProgress := path.length }
      (s2, [.markCorrect gridPos, .correctStep gridPos path.length path.length,
            .pathCompleted s2.stepsOnPath])
    else
      let s2 := { s1 with pathProgress := s1.pathProgress + 1 }
      (s2, [.markCorrect gridPos, .correctStep gridPos s2.pathProgress path.length])
  else
    -- Normal mode: validate against expected path position.
    let expectedPos := path[s.pathProgress]?
    if isSameGridPosition (some gridPos) expectedPos then
      let s1 := { s with stepsOnPath := s.stepsOnPath ++ [gridPos],
                         pathProgress := s.pathProgress + 1 }
      if path.length ≤ s1.pathProgress then
        (s1, [.markCorrect gridPos, .correctStep gridPos s1.pathProgress path.length,
              .pathCompleted s1.stepsOnPath])
      else
        (s1, [.markCorrect gridPos, .correctStep gridPos s1.pathProgress path.length])
    else
      (s, [.markWrong gridPos, .wrongStep gridPos expectedPos])

/-- The `onTileExited` callback fired when leaving a previous tile
(`previousTile && callbacks.onTileExited`): nothing fires when there was no
previous tile. -/
def exitEvents : Option GridPos → List TraceEv
  | some p => [TraceEv.tileExited p]
  | none => []

/-- PlayerTracker.handleTriggerEntered: the sole entry point for tile-entry
events. Idle-phase events and same-tile re-entries are discarded; otherwise
`currentTile` is updated, exit/enter callbacks fire, and the step is
validated. -/
def handleTriggerEntered (path : List GridPos) (skipPathCheck : Bool)
    (s : TrackingState) (gridX gridZ : Int) : TrackingState × List TraceEv :=
  if !s.isTracking then (s, [])
  else
    let newGridPos : GridPos := ⟨gridX, gridZ⟩
    if isSameGridPosition (some newGridPos) s.currentTile then (s, [])
    else
      let previousTile := s.currentTile
      let s1 := { s with currentTile := some newGridPos }
      let v := validateStep path skipPathCheck s1 newGridPos
      (v.1, exitEvents previousTile ++ [TraceEv.tileEntered newGridPos] ++ v.2)

/-- Feeds a sequence of tile-entry events to the validator, concatenating
the emitted traces. -/
def feedEntries (path : List GridPos) (skipPathCheck : Bool)
    (s : TrackingState) (entries : List GridPos) : TrackingState × List TraceEv :=
  match entries with
  | [] => (s, [])
  | e :: rest =>
    let out := handleTriggerEntered path skipPathCheck s e.x e.z
    let out2 := feedEntries path skipPathCheck out.1 rest
    (out2.1, out.2 ++ out2.2)

/-- Number of `onCorrectStep` invocations in a trace. -/
def countCorrectSteps (tr : List TraceEv) : Nat :=
  tr.countP fun e => match e with | .correctStep _ _ _ => true | _ => false

/-- Number of `onWrongStep` invocations in a trace. -/
def countWrongSteps (tr : List TraceEv) : Nat :=
  tr.countP fun e => match e with | .wrongStep _ _ => true | _ => false

/-- Number of `onPathCompleted` invocations in a trace. -/
def countPathCompleted (tr : List TraceEv) : Nat :=
  tr.countP fun e => match e with | .pathCompleted _ => true | _ => false

/-! ## TileTrigger: per-tile detection volume with a single-fire latch -/

/-- The script state of one TileTrigger detection volume. -/
structure TileTrigger where
  gridX : Int
  gridZ : Int
  hasTriggered : Bool
deriving DecidableEq, Repr

/-- TileTrigger.onOverlapEnter: one physical overlap event on the volume.
`isCameraOverlap` is the result of the `isCameraColliderOverlap` ownership
filter (true exactly when the overlap source is the camera's collider).
Returns the new trigger state and the coordinates passed to the
`onTriggerCallback` when it fires. -/
def onOverlapEnter (t : TileTrigger) (isCameraOverlap : Bool) :
    TileTrigger × Option GridPos :=
  if t.hasTriggered then (t, none)
  else if !isCameraOverlap then (t, none)
  else ({ t with hasTriggered := true }, some ⟨t.gridX, t.gridZ⟩)

/-- TileTrigger.resetTrigger: clears the single-fire latch. -/
def resetTrigger (t : TileTrigger) : TileTrigger :=
  { t with hasTriggered := false }

/-- GridManager.resetTriggers: resets every trigger of the trigger grid. -/
def resetTriggers (triggers : List (List TileTrigger)) : List (List TileTrigger) :=
  triggers.map fun row => row.map resetTrigger

/-- Delivers a sequence of overlap events (each flagged camera / non-camera)
to one trigger volume, collecting the coordinates of every callback fired. -/
def processOverlaps (t : TileTrigger) (evs : List Bool) : TileTrigger × List GridPos :=
  match evs with
  | [] => (t, [])
  | b :: rest =>
    let o := onOverlapEnter t b
    let o2 := processOverlaps o.1 rest
    (o2.1, o.2.toList ++ o2.2)

/-! ## GridManager: tile states -/

/-- The `state` tag of a tile. -/
inductive TileState where
  | default
  | path
  | start
  | endTile
  | correct
  | wrong
deriving DecidableEq, Repr

/-- One entry of `gridConfig.tiles` (the fields the core mutates). -/
structure Tile where
  state : TileState
  isPathTile : Bool
  pathIndex : Int
deriving DecidableEq, Repr

/-- GridManager's claim-relevant state: the `tiles[z][x]` array is embedded
as a total function on indices (out-of-range indices are never touched by
the guarded operations), plus the `pathData` fields that
`resetTileStates` clears. -/
structure GridMState where
  rows : Int
  columns : Int
  tiles : Int → Int → Tile
  path : List GridPos
  isRevealed : Bool

/-- GridManager.isValidTilePosition. -/
def isValidTilePosition (g : GridMState) (gridX gridZ : Int) : Bool :=
  isValidGridPosition gridX gridZ g.rows g.columns

/-- GridManager.markTileCorrect: sets the tile's state tag to `correct`
(the accompanying `setTileColor` is visual-only and not modelled). -/
def markTileCorrect (gridX gridZ : Int) (g : GridMState) : GridMState :=
  if isValidTilePosition g gridX gridZ then
    { g with tiles := fun z x =>
        if z = gridZ ∧ x = gridX then { g.tiles z x with state := .correct }
        else g.tiles z x }
  else g

/-- GridManager.resetTileStates: resets state/isPathTile/pathIndex of every
in-range tile and clears the installed path. -/
def resetTileStates (g : GridMState) : GridMState :=
  { g with
    tiles := fun z x =>
      if 0 ≤ z ∧ z < g.rows ∧ 0 ≤ x ∧ x < g.columns then
        { state := .default, isPathTile := false, pathIndex := -1 }
      else g.tiles z x,
    path := [],
    isRevealed := false }

/-! ## GameStateManager: level setup and level configuration -/

/-- Constants.LevelConfig.BASE_PATH_LENGTH. -/
def BASE_PATH_LENGTH : Int := 5

/-- Constants.LevelConfig.PATH_INCREMENT. -/
def PATH_INCREMENT : Int := 2

/-- Constants.LevelConfig.MAX_PATH_LENGTH. -/
def MAX_PATH_LENGTH : Int := 25

/-- Constants.LevelConfig.MEMORIZE_TIME (seconds). -/
def MEMORIZE_TIME : Int := 5

/-- GameStateManager.getLevelConfig: the path length for a level,
`BASE_PATH_LENGTH + (level - 1) * PATH_INCREMENT` clamped to
`MAX_PATH_LENGTH` (grid size and memorize time are constant). -/
def levelPathLength (level : Int) : Int :=
  min (BASE_PATH_LENGTH + (level - 1) * PATH_INCREMENT) MAX_PATH_LENGTH

/-- The claim-relevant slice of GameStateManager's `gameState`. -/
structure GameRoundState where
  currentLevel : Int
  memorizeTimeRemaining : Int
deriving DecidableEq, Repr

/-- GameStateManager.setupLevel: re-reads the level from the persisted
progress store (`savedLevel`; `none` models the save system being absent),
overwrites the local counter on disagreement, then derives the round's path
length from the corrected level. Returns the new state and the path length
passed to `GridManager.generateNewPath`. -/
def setupLevel (savedLevel : Option Int) (gs : GameRoundState) : GameRoundState × Int :=
  let gs1 := match savedLevel with
    | some sl => if sl ≠ gs.currentLevel then { gs with currentLevel := sl } else gs
    | none => gs
  let pathLength := levelPathLength gs1.currentLevel
  ({ gs1 with memorizeTimeRemaining := MEMORIZE_TIME }, pathLength)

/-! ## Grid geometry: tile placement and the inverse coordinate mapping -/

/-- GridManager.createTileObject: the local X coordinate of the centre of
tile `(gridX, _)` relative to the grid parent (centred horizontally). -/
def tileLocalX (columns : Int) (tileSize tileGap : ℚ) (gridX : Int) : ℚ :=
  let totalTileSize := tileSize + tileGap
  let halfTile := tileSize / 2
  let gridWidth := (columns : ℚ) * totalTileSize - tileGap
  let offsetX := -gridWidth / 2
  (gridX : ℚ) * totalTileSize + halfTile + offsetX

/-- GridManager.createTileObject: the local Z coordinate of the centre of
tile `(_, gridZ)` (start row `rows - 1` anchored just in front of the
placement point; the grid extends into negative Z). -/
def tileLocalZ (rows : Int) (tileSize tileGap : ℚ) (gridZ : Int) : ℚ :=
  let totalTileSize := tileSize + tileGap
  let halfTile := tileSize / 2
  let startGridZ : Int := rows - 1
  halfTile + ((gridZ : ℚ) - (startGridZ : ℚ)) * totalTileSize

/-- GridManager.worldPositionToGrid's arithmetic on local coordinates: with
the grid parent untransformed (identity rotation, parent world position as
origin), `localPos` equals the world position minus the parent position, so
the mapping is applied directly to local coordinates. -/
def worldPositionToGrid (rows columns : Int) (tileSize tileGap : ℚ)
    (localX localZ : ℚ) : Int × Int :=
  let totalTileSize := tileSize + tileGap
  let gridWidth := (columns : ℚ) * totalTileSize - tileGap
  let offsetX := -gridWidth / 2
  let halfTile := tileSize / 2
  let startGridZ : Int := rows - 1
  let adjustedX := localX - offsetX
  let gridX := ⌊adjustedX / totalTileSize⌋
  let adjustedZ := localZ - halfTile
  let gridZ := startGridZ + ⌊adjustedZ / totalTileSize⌋
  (gridX, gridZ)

/-! ## PathGenerator -/

/-- The perimeter cells collected by PathGenerator.getRandomEdgePosition, in
the source's order: bottom edge (`z = 0`), top edge (`z = rows - 1`), then
left and right edges excluding the corners already added (`z = 1` to
`rows - 2`). -/
def edgeCells (rows columns : Int) : List GridPos :=
  ((List.range columns.toNat).map fun (x : Nat) => (⟨(x : Int), 0⟩ : GridPos))
  ++ ((List.range columns.toNat).map fun (x : Nat) => (⟨(x : Int), rows - 1⟩ : GridPos))
  ++ ((List.range (rows - 2).toNat).map fun (i : Nat) => (⟨0, (i : Int) + 1⟩ : GridPos))
  ++ ((List.range (rows - 2).toNat).map fun (i : Nat) =>
      (⟨columns - 1, (i : Int) + 1⟩ : GridPos))

/-- PathGenerator.getRandomEdgePosition: a random perimeter cell, with the
index drawn via `randomInt(0, edges.length - 1)`. -/
def getRandomEdgePosition (rows columns : Int) (r : Rand) : GridPos × Rand :=
  let edges := edgeCells rows columns
  let v := r.next
  let index := randomInt 0 ((edges.length : Int) - 1) v.1
  (edges.getD index.toNat ⟨0, 0⟩, v.2)

/-- The neighbour actually extended to: the source permutes
`validNeighbors` (by `MathHelpers.shuffleArray` for short paths, or by the
exit-count sort with a random tiebreaker for near-Hamiltonian ones) and
takes element 0.  Under the random permutation, element 0 is an arbitrary
element of the list; it is embedded as the element indexed by the next raw
random value reduced mod the list length. -/
def pickNeighbor (validNeighbors : List GridPos) (v : Nat) : GridPos :=
  validNeighbors.getD (v % validNeighbors.length) ⟨0, 0⟩

/-- The `while (path.length < pathLength && attempts < maxAttempts)` loop of
PathGenerator.generatePathAttempt. `fuel` is the remaining extension-attempt
budget (`maxAttempts - attempts`; every iteration, extension, backtrack or
restart alike, consumes one unit, exactly as `attempts++` does in the
source).  The path is held reversed (head = current position); the
source's `visited` dictionary always holds exactly the path's cells (keys
are added on push, deleted on pop, cleared on restart), so visitedness is
embedded as membership in the path. -/
def attemptLoop (rows columns pathLength : Int) :
    Nat → List GridPos → Rand → List GridPos × Rand
  | 0, path, r => (path, r)
  | fuel + 1, path, r =>
    if (path.length : Int) < pathLength then
      match path with
      | [] => ([], r)
      | currentPos :: rest =>
        let validNeighbors :=
          (getNeighbors currentPos.x currentPos.z rows columns).filter
            fun n => decide (n ∉ currentPos :: rest)
        if validNeighbors = [] then
          -- Dead end: backtrack one step, or restart from a new random edge
          -- cell when only the start remains.
          if rest = [] then
            let s := getRandomEdgePosition rows columns r
            attemptLoop rows columns pathLength fuel [s.1] s.2
          else
            attemptLoop rows columns pathLength fuel rest r
        else
          let v := r.next
          attemptLoop rows columns pathLength fuel
            (pickNeighbor validNeighbors v.1 :: currentPos :: rest) v.2
    else (path, r)

/-- PathGenerator.generatePathAttempt: one whole construction attempt,
starting from `startPos` (or a random edge cell when omitted) with a step
budget of `pathLength * 100`. -/
def generatePathAttempt (rows columns pathLength : Int) (startPos : Option GridPos)
    (r : Rand) : List GridPos × Rand :=
  let s := match startPos with
    | some s0 => (s0, r)
    | none => getRandomEdgePosition rows columns r
  let maxAttempts := (pathLength * 100).toNat
  let out := attemptLoop rows columns pathLength maxAttempts [s.1] s.2
  (out.1.reverse, out.2)

/-- The best-attempt accumulator of PathGenerator.generatePath:
`if (!bestPath || result.length > bestPath.length) bestPath = result`. -/
def bestOf (best : Option (List GridPos)) (result : List GridPos) :
    Option (List GridPos) :=
  match best with
  | none => some result
  | some b => if b.length < result.length then some result else some b

/-- The retry loop of PathGenerator.generatePath: up to `retries` attempts,
returning the first attempt that reaches `pathLength` immediately, else the
longest attempt seen. -/
def generatePathRetry (rows columns pathLength : Int) (startPos : Option GridPos) :
    Nat → Option (List GridPos) → Rand → List GridPos × Rand
  | 0, best, r => (best.getD [], r)
  | n + 1, best, r =>
    let a := generatePathAttempt rows columns pathLength startPos r
    if pathLength ≤ (a.1.length : Int) then a
    else generatePathRetry rows columns pathLength startPos n (bestOf best a.1) a.2

/-- PathGenerator.generatePath: clamps the requested length to
`rows * columns` and runs up to `MAX_RETRIES = 10` attempts. -/
def generatePath (rows columns pathLength : Int) (startPos : Option GridPos)
    (r : Rand) : List GridPos × Rand :=
  let clamped := min pathLength (rows * columns)
  generatePathRetry rows columns clamped startPos 10 none r

/-- PathGenerator.generatePathFromBottom: fixes the start at the horizontal
centre of the row nearest the placement anchor,
`(Math.floor(columns / 2), rows - 1)`. -/
def generatePathFromBottom (rows columns pathLength : Int) (r : Rand) :
    List GridPos × Rand :=
  generatePath rows columns pathLength (some ⟨columns / 2, rows - 1⟩) r

/-- The attempt results of the first `n` retries, with the random stream
threaded exactly as the retry loop threads it. -/
def attemptResults (rows columns pathLength : Int) (startPos : Option GridPos) :
    Nat → Rand → List (List GridPos)
  | 0, _ => []
  | n + 1, r =>
    let a := generatePathAttempt rows columns pathLength startPos r
    a.1 :: attemptResults rows columns pathLength startPos n a.2

/-- Validity of a single coordinate for the grid, as a Bool. -/
def validB (rows columns : Int) (p : GridPos) : Bool :=
  isValidGridPosition p.x p.z rows columns

/-- The path well-formedness contract of §3/§8 of the spec: consecutive
coordinates orthogonally adjacent (Manhattan distance 1), no repeats, all
coordinates in bounds, and length at most `rows * columns`. -/
def pathSpec (rows columns : Int) (p : List GridPos) : Prop :=
  List.Chain' (fun a b => manhattan a b = 1) p ∧ p.Nodup ∧
    (∀ q ∈ p, validB rows columns q = true) ∧ (p.length : Int) ≤ rows * columns

/-- Invariant of the generator's working path (held reversed): a connected,
duplicate-free, in-bounds, nonempty walk of bounded length. -/
def revWalkInv (rows columns : Int) (bound : Nat) (p : List GridPos) : Prop :=
  List.Chain' (fun a b => manhattan a b = 1) p ∧ p.Nodup ∧
    (∀ q ∈ p, validB rows columns q = true) ∧ p ≠ [] ∧ p.length ≤ bound

/-! ## Walk enumeration (used to settle the concrete 5×5 scenario) -/

/-- All one-step extensions of a (reversed) self-avoiding walk, mirroring
the extension step of `attemptLoop`. -/
def extendWalk (rows columns : Int) (p : List GridPos) : List (List GridPos) :=
  match p with
  | [] => []
  | c :: _ =>
    ((getNeighbors c.x c.z rows columns).filter fun n => decide (n ∉ p)).map (· :: p)

/-- All (reversed) self-avoiding walks of `k` extension steps from `start`. -/
def walksFrom (rows columns : Int) (start : GridPos) : Nat → List (List GridPos)
  | 0 => [[start]]
  | k + 1 => (walksFrom rows columns start k).flatMap (extendWalk rows columns)

/-! ## Concrete sample values used by witness and counterexample theorems -/

/-- A concrete two-tile path used to exercise the validator. -/
def cPath : List GridPos := [⟨0, 0⟩, ⟨1, 0⟩]

/-- A concrete tracking state with tracking disarmed. -/
def stoppedState : TrackingState := { startTrackingState with isTracking := false }

/-- A concrete un-fired trigger volume. -/
def sampleTrigger : TileTrigger := ⟨1, 2, false⟩

/-- A concrete 1×1 grid state with a non-default tile. -/
def sampleGrid : GridMState :=
  { rows := 1, columns := 1, tiles := fun _ _ => ⟨.path, true, 3⟩,
    path := [⟨0, 0⟩], isRevealed := true }

/-- A concrete all-zeroes random stream. -/
def zeroRand : Rand := ⟨fun _ => 0, 0⟩

/-! # Theorems -/

/-! ## C8: level resynchronisation against the persisted store -/

/-- C8: before generating a round's path, `setupLevel` re-reads the level
from the persisted progress store and overwrites the local counter with the
store's value whenever they disagree (the store wins, with no error), and
the round's path length is derived from the corrected level. -/
theorem C8_level_resync (sl : Int) (gs : GameRoundState) :
    (setupLevel (some sl) gs).1.currentLevel = sl ∧
    (setupLevel (some sl) gs).2 = levelPathLength sl := by
  unfold setupLevel
  by_cases h : sl = gs.currentLevel <;> simp [h]

/-! ## C7: idle-phase and same-tile entries are discarded unchanged -/

/-- C7: a tile-entry event delivered while tracking is not armed, or whose
coordinates equal `currentTile`, emits nothing and leaves the whole
tracking state (including `pathProgress`, `stepsOnPath`, `currentTile`)
unchanged; only an armed entry into a different tile reaches validation. -/
theorem C7_ignored_entries (path : List GridPos) (skipPathCheck : Bool)
    (s : TrackingState) (gridX gridZ : Int)
    (h : s.isTracking = false ∨ s.currentTile = some ⟨gridX, gridZ⟩) :
    handleTriggerEntered path skipPathCheck s gridX gridZ = (s, []) := by
  unfold handleTriggerEntered
  rcases h with h | h
  · simp [h]
  · cases hs : s.isTracking <;> simp [hs, h, isSameGridPosition]

/-- Witness for C7 at a concrete disarmed state. -/
theorem C7_witness :
    (stoppedState.isTracking = false ∨ stoppedState.currentTile = some ⟨0, 0⟩) ∧
    handleTriggerEntered cPath false stoppedState 0 0 = (stoppedState, []) :=
  ⟨Or.inl rfl, C7_ignored_entries cPath false stoppedState 0 0 (Or.inl rfl)⟩

/-! ## C3: the single-fire latch of the detection volumes -/

/-- A fired trigger never fires again (for any further event sequence)
until its latch is reset. -/
lemma processOverlaps_of_triggered (t : TileTrigger) (evs : List Bool)
    (h : t.hasTriggered = true) : (processOverlaps t evs).2 = [] := by
  induction evs generalizing t with
  | nil => rfl
  | cons b rest ih =>
    simp only [processOverlaps, onOverlapEnter, h, if_true]
    exact ih t h

/-- From a reset latch, an overlap-event sequence produces exactly one
callback (carrying the tile's coordinates) if it contains a camera-collider
entry, and none otherwise. -/
lemma processOverlaps_of_fresh (t : TileTrigger) (evs : List Bool)
    (h : t.hasTriggered = false) :
    (processOverlaps t evs).2 =
      if true ∈ evs then [⟨t.gridX, t.gridZ⟩] else [] := by
  induction evs generalizing t with
  | nil => simp [processOverlaps]
  | cons b rest ih =>
    cases b
    · simpa [processOverlaps, onOverlapEnter, h] using ih t h
    · simp [processOverlaps, onOverlapEnter, h,
        processOverlaps_of_triggered { t with hasTriggered := true } rest rfl]

/-- C3: each detection volume fires at most once until explicitly reset
(once the latch is set, no sequence of further overlap events produces a
callback); after `resetTriggers()` every volume's latch is false; and from
a reset latch, the very next camera-collider entry fires exactly once (with
the tile's own coordinates) until another reset, regardless of the
surrounding overlap events. -/
theorem C3_single_fire_latch :
    (∀ (t : TileTrigger) (evs : List Bool), t.hasTriggered = true →
      (processOverlaps t evs).2 = []) ∧
    (∀ grid : List (List TileTrigger), ∀ row ∈ resetTriggers grid, ∀ t ∈ row,
      t.hasTriggered = false) ∧
    (∀ (t : TileTrigger) (evs : List Bool), t.hasTriggered = false →
      (processOverlaps t evs).2 =
        if true ∈ evs then [⟨t.gridX, t.gridZ⟩] else []) := by
  refine ⟨processOverlaps_of_triggered, ?_, processOverlaps_of_fresh⟩
  intro grid row hrow t ht
  simp only [resetTriggers, List.mem_map] at hrow
  obtain ⟨row0, -, rfl⟩ := hrow
  simp only [List.mem_map] at ht
  obtain ⟨t0, -, rfl⟩ := ht
  rfl

/-- Witness for C3 at a concrete fresh trigger and event sequence. -/
theorem C3_witness :
    sampleTrigger.hasTriggered = false ∧
    (processOverlaps sampleTrigger [false, true, true]).2 =
      (if true ∈ [false, true, true] then [⟨sampleTrigger.gridX, sampleTrigger.gridZ⟩]
       else []) :=
  ⟨rfl, C3_single_fire_latch.2.2 sampleTrigger [false, true, true] rfl⟩

/-! ## C9: idempotence of markTileCorrect and resetTileStates -/

/-- C9: `markTileCorrect` and `resetTileStates` are idempotent on the
tile-state mapping, and `resetTileStates` leaves every in-range tile with
state `default`, `isPathTile` false and `pathIndex` −1. -/
theorem C9_idempotent_tile_ops (g : GridMState) (gridX gridZ : Int) :
    markTileCorrect gridX gridZ (markTileCorrect gridX gridZ g) =
      markTileCorrect gridX gridZ g ∧
    resetTileStates (resetTileStates g) = resetTileStates g ∧
    (∀ z x : Int, 0 ≤ z → z < g.rows → 0 ≤ x → x < g.columns →
      (resetTileStates g).tiles z x = ⟨.default, false, -1⟩) := by
  refine ⟨?_, ?_, ?_⟩
  · by_cases h : isValidTilePosition g gridX gridZ
    · have hvalid : ∀ f : Int → Int → Tile,
          isValidTilePosition { g with tiles := f } gridX gridZ =
            isValidTilePosition g gridX gridZ := fun _ => rfl
      simp only [markTileCorrect, hvalid, h, if_true]
      congr 1
      funext z x
      by_cases hz : z = gridZ ∧ x = gridX <;> simp [hz]
    · have hb : markTileCorrect gridX gridZ g = g := by
        simp [markTileCorrect, h]
      rw [hb, hb]
  · unfold resetTileStates
    congr 1
    funext z x
    by_cases hz : 0 ≤ z ∧ z < g.rows ∧ 0 ≤ x ∧ x < g.columns <;> simp [hz]
  · intro z x h0 h1 h2 h3
    simp [resetTileStates, h0, h1, h2, h3]

/-- Witness for C9 at a concrete grid state and in-range coordinates. -/
theorem C9_witness :
    ((0 : Int) ≤ 0 ∧ (0 : Int) < sampleGrid.rows ∧ (0 : Int) < sampleGrid.columns) ∧
    (resetTileStates sampleGrid).tiles 0 0 = ⟨.default, false, -1⟩ :=
  ⟨⟨le_refl 0, by decide, by decide⟩,
   (C9_idempotent_tile_ops sampleGrid 0 0).2.2 0 0 (by decide) (by decide)
     (by decide) (by decide)⟩

/-! ## C10: round-trip of the grid coordinate mapping -/

/-- C10: with the grid parent untransformed, applying
`worldPositionToGrid`'s arithmetic to the tile-centre local position
computed by `createTileObject` recovers exactly the tile's grid
coordinates, for every in-bounds tile of any initialized grid. -/
theorem C10_coordinate_roundtrip (rows columns gridX gridZ : Int)
    (tileSize tileGap : ℚ) (hts : 0 < tileSize) (hgap : 0 ≤ tileGap)
    (hx0 : 0 ≤ gridX) (hx1 : gridX < columns) (hz0 : 0 ≤ gridZ) (hz1 : gridZ < rows) :
    worldPositionToGrid rows columns tileSize tileGap
      (tileLocalX columns tileSize tileGap gridX)
      (tileLocalZ rows tileSize tileGap gridZ) = (gridX, gridZ) := by
  have hT : (0 : ℚ) < tileSize + tileGap := by linarith
  have hTne : tileSize + tileGap ≠ 0 := ne_of_gt hT
  unfold worldPositionToGrid tileLocalX tileLocalZ
  simp only [Prod.mk.injEq]
  constructor
  · have hx : ((gridX : ℚ) * (tileSize + tileGap) + tileSize / 2 +
        -((columns : ℚ) * (tileSize + tileGap) - tileGap) / 2 -
        -((columns : ℚ) * (tileSize + tileGap) - tileGap) / 2) / (tileSize + tileGap) =
        (gridX : ℚ) + (tileSize / 2) / (tileSize + tileGap) := by
      field_simp
      ring
    rw [hx]
    have hfrac : ⌊(tileSize / 2) / (tileSize + tileGap)⌋ = 0 := by
      rw [Int.floor_eq_zero_iff]
      constructor
      · positivity
      · rw [div_lt_one hT]
        linarith
    rw [Int.floor_int_add, hfrac, add_zero]
  · have hz : (tileSize / 2 + ((gridZ : ℚ) - ((rows - 1 : Int) : ℚ)) * (tileSize + tileGap) -
        tileSize / 2) / (tileSize + tileGap) = ((gridZ - (rows - 1) : Int) : ℚ) := by
      push_cast
      field_simp
    rw [hz, Int.floor_intCast]
    omega

/-- Witness for C10 at a concrete grid and tile. -/
theorem C10_witness :
    ((0 : ℚ) < 50 ∧ (0 : ℚ) ≤ 2 ∧ (0 : Int) ≤ 3 ∧ (3 : Int) < 5 ∧
      (0 : Int) ≤ 4 ∧ (4 : Int) < 5) ∧
    worldPositionToGrid 5 5 50 2 (tileLocalX 5 50 2 3) (tileLocalZ 5 50 2 4) = (3, 4) :=
  ⟨⟨by norm_num, by norm_num, by norm_num, by norm_num, by norm_num, by norm_num⟩,
   C10_coordinate_roundtrip 5 5 3 4 50 2 (by norm_num) (by norm_num) (by norm_num)
     (by norm_num) (by norm_num) (by norm_num)⟩

/-! ## C4: a first entry skipping the start tile -/

/-- C4: in normal mode with tracking freshly armed (`pathProgress = 0`), an
entry on `P[1]` (skipping `P[0]`) emits exactly one wrong-step event with
expected tile `P[0]` and actual tile `P[1]` (besides the tile-entered
callback and the wrong-tile visual command), does not advance
`pathProgress`, appends nothing to `stepsOnPath`, and leaves the
tracking-enabled flag armed. -/
theorem C4_skipped_start (P : List GridPos) (a b : GridPos)
    (h0 : P[0]? = some a) (h1 : P[1]? = some b) (hab : a ≠ b) :
    handleTriggerEntered P false startTrackingState b.x b.z =
      ({ startTrackingState with currentTile := some b },
       [.tileEntered b, .markWrong b, .wrongStep b (some a)]) := by
  obtain ⟨ax, az⟩ := a
  obtain ⟨bx, bz⟩ := b
  have hne : P.length ≠ 0 := by
    intro hlen
    rw [List.getElem?_eq_none (by omega)] at h0
    exact Option.noConfusion h0
  have hmix : (decide (bx = ax) && decide (bz = az)) = false := by
    rcases Decidable.em (bx = ax) with hx | hx
    · rcases Decidable.em (bz = az) with hz | hz
      · exact absurd (by simp [hx, hz]) hab
      · simp [hz]
    · simp [hx]
  unfold handleTriggerEntered validateStep
  simp [startTrackingState, isSameGridPosition, exitEvents, hne, h0, hmix]

/-- Witness for C4 at a concrete three-tile path. -/
theorem C4_witness :
    ((cPath ++ [⟨2, 0⟩])[0]? = some ⟨0, 0⟩ ∧ (cPath ++ [⟨2, 0⟩])[1]? = some ⟨1, 0⟩ ∧
      (⟨0, 0⟩ : GridPos) ≠ ⟨1, 0⟩) ∧
    handleTriggerEntered (cPath ++ [⟨2, 0⟩]) false startTrackingState 1 0 =
      ({ startTrackingState with currentTile := some ⟨1, 0⟩ },
       [.tileEntered ⟨1, 0⟩, .markWrong ⟨1, 0⟩, .wrongStep ⟨1, 0⟩ (some ⟨0, 0⟩)]) :=
  ⟨⟨by decide, by decide, by decide⟩,
   C4_skipped_start (cPath ++ [⟨2, 0⟩]) ⟨0, 0⟩ ⟨1, 0⟩ (by decide) (by decide) (by decide)⟩

/-! ## C1: feeding the whole path in order -/

lemma isSame_refl (a : GridPos) : isSameGridPosition (some a) (some a) = true := by
  simp [isSameGridPosition]

lemma isSame_of_ne (a : GridPos) (c : Option GridPos) (h : c ≠ some a) :
    isSameGridPosition (some a) c = false := by
  rcases c with _ | b
  · rfl
  · obtain ⟨ax, az⟩ := a
    obtain ⟨bx, bz⟩ := b
    have hne : ¬(ax = bx ∧ az = bz) := by
      intro ⟨h1, h2⟩
      exact h (by simp [h1, h2])
    simp only [isSameGridPosition, Bool.and_eq_false_iff, decide_eq_false_iff_not]
    by_cases h1 : ax = bx
    · exact Or.inr fun h2 => hne ⟨h1, h2⟩
    · exact Or.inl h1

/-- One-step unfolding of `feedEntries`. -/
lemma feedEntries_cons (path : List GridPos) (skip : Bool) (s : TrackingState)
    (e : GridPos) (rest : List GridPos) :
    feedEntries path skip s (e :: rest) =
      ((feedEntries path skip (handleTriggerEntered path skip s e.x e.z).1 rest).1,
       (handleTriggerEntered path skip s e.x e.z).2 ++
         (feedEntries path skip (handleTriggerEntered path skip s e.x e.z).1 rest).2) :=
  rfl

@[simp] lemma countCorrectSteps_append (l1 l2 : List TraceEv) :
    countCorrectSteps (l1 ++ l2) = countCorrectSteps l1 + countCorrectSteps l2 :=
  List.countP_append _ _ _

@[simp] lemma countWrongSteps_append (l1 l2 : List TraceEv) :
    countWrongSteps (l1 ++ l2) = countWrongSteps l1 + countWrongSteps l2 :=
  List.countP_append _ _ _

@[simp] lemma countPathCompleted_append (l1 l2 : List TraceEv) :
    countPathCompleted (l1 ++ l2) = countPathCompleted l1 + countPathCompleted l2 :=
  List.countP_append _ _ _

/-- Handling one entry that matches the expected path position: the state
advances and the step trace is the exit/enter callbacks, the mark-correct
command, the correct-step event, and (exactly when the path is finished)
the path-completed event. -/
lemma handle_match_step (pre rem : List GridPos) (e : GridPos) (c : Option GridPos)
    (hc : isSameGridPosition (some e) c = false) :
    handleTriggerEntered (pre ++ e :: rem) false ⟨true, c, pre.length, pre⟩ e.x e.z =
      (⟨true, some e, pre.length + 1, pre ++ [e]⟩,
       exitEvents c ++ [TraceEv.tileEntered e] ++
         ([TraceEv.markCorrect e,
           TraceEv.correctStep e (pre.length + 1) (pre ++ e :: rem).length] ++
          if rem = [] then [TraceEv.pathCompleted (pre ++ [e])] else [])) := by
  have hget : (pre ++ e :: rem)[pre.length]? = some e := by
    rw [List.getElem?_append_right (le_refl _)]
    simp
  have hlen : (pre ++ e :: rem).length = pre.length + 1 + rem.length := by
    simp [List.length_append]
    omega
  have hlenne : (pre ++ e :: rem).length ≠ 0 := by
    rw [hlen]; omega
  unfold handleTriggerEntered validateStep
  simp only [Bool.not_true, Bool.false_eq_true, if_false, hc, hget, isSame_refl,
    hlenne, ite_false, ite_true]
  rcases eq_or_ne rem [] with hrem | hrem
  · subst hrem
    simp [hlen]
  · have : ¬((pre ++ e :: rem).length ≤ pre.length + 1) := by
      rw [hlen]
      have : rem.length ≠ 0 := fun h => hrem (List.length_eq_zero.mp h)
      omega
    simp [this, hrem]

/-- Feeding the remaining suffix of the path, entry by entry, from a state
whose progress equals the consumed prefix: every entry matches, the last
one also completes the path, and the counters come out as stated. -/
lemma feed_along_path (rem : List GridPos) :
    ∀ (pre : List GridPos) (c : Option GridPos), rem ≠ [] → rem.Nodup →
      (∀ p ∈ rem, c ≠ some p) →
      (feedEntries (pre ++ rem) false ⟨true, c, pre.length, pre⟩ rem).1 =
          ⟨true, rem.getLast?, (pre ++ rem).length, pre ++ rem⟩ ∧
      countCorrectSteps
          (feedEntries (pre ++ rem) false ⟨true, c, pre.length, pre⟩ rem).2 =
        rem.length ∧
      countWrongSteps
          (feedEntries (pre ++ rem) false ⟨true, c, pre.length, pre⟩ rem).2 = 0 ∧
      countPathCompleted
          (feedEntries (pre ++ rem) false ⟨true, c, pre.length, pre⟩ rem).2 = 1 ∧
      (feedEntries (pre ++ rem) false ⟨true, c, pre.length, pre⟩ rem).2.getLast? =
        some (.pathCompleted (pre ++ rem)) := by
  induction rem with
  | nil => intro pre c hne; exact absurd rfl hne
  | cons e rem ih =>
    intro pre c _ hnd hc
    have hce : c ≠ some e := fun h => hc e (List.mem_cons_self e rem) h
    have hstep := handle_match_step pre rem e c (isSame_of_ne e c hce)
    rcases eq_or_ne rem [] with hrem | hrem
    · subst hrem
      rw [feedEntries_cons]
      simp only [hstep]
      refine ⟨by simp [feedEntries], ?_, ?_, ?_, ?_⟩ <;>
        rcases c with _ | p <;>
          simp [feedEntries, exitEvents, countCorrectSteps, countWrongSteps,
            countPathCompleted, List.countP_cons, List.countP_append]
    · obtain ⟨e2, rem', rfl⟩ : ∃ e2 rem', rem = e2 :: rem' := by
        rcases rem with _ | ⟨e2, rem'⟩
        · exact absurd rfl hrem
        · exact ⟨e2, rem', rfl⟩
      have happ : pre ++ e :: e2 :: rem' = (pre ++ [e]) ++ e2 :: rem' := by
        simp
      have ihspec := ih (pre ++ [e]) (some e) (by simp) (List.Nodup.of_cons hnd)
        (fun p hp h => (List.nodup_cons.mp hnd).1 (by
          rw [show p = e from (Option.some.injEq _ _).mp h.symm] at hp
          exact hp))
      rw [List.length_append, List.length_singleton] at ihspec
      rw [← happ] at ihspec
      rw [feedEntries_cons]
      simp only [hstep, if_neg (by simp : ¬(e2 :: rem' = []))]
      set t2 := (feedEntries (pre ++ e :: e2 :: rem') false
        ⟨true, some e, pre.length + 1, pre ++ [e]⟩ (e2 :: rem')).2 with ht2
      have ht2ne : t2 ≠ [] := by
        intro h
        rw [h] at ihspec
        exact Option.noConfusion ihspec.2.2.2.2
      refine ⟨?_, ?_, ?_, ?_, ?_⟩
      · rw [ihspec.1]
        simp
      · rw [countCorrectSteps_append, ihspec.2.1]
        rcases c with _ | p <;>
          simp [exitEvents, countCorrectSteps, List.countP_cons, List.countP_append] <;>
            omega
      · rw [countWrongSteps_append, ihspec.2.2.1]
        rcases c with _ | p <;>
          simp [exitEvents, countWrongSteps, List.countP_cons, List.countP_append]
      · rw [countPathCompleted_append, ihspec.2.2.2.1]
        rcases c with _ | p <;>
          simp [exitEvents, countPathCompleted, List.countP_cons, List.countP_append]
      · rw [List.getLast?_append, ihspec.2.2.2.2]
        rfl

/-- C1 (amended): in normal mode with tracking freshly armed, feeding the
validator an entry sequence equal to the active path `P` in order emits
exactly `|P|` correct-step events (one per entry, the code fires
`onCorrectStep` on the final match too — the "instead" in the source
applies only to the step sound), no wrong-step events, and exactly one
path-completed event, fired last; `pathProgress` ends at `|P|`. -/
theorem C1_full_walk (P : List GridPos) (hne : P ≠ []) (hnd : P.Nodup) :
    countCorrectSteps (feedEntries P false startTrackingState P).2 = P.length ∧
    countWrongSteps (feedEntries P false startTrackingState P).2 = 0 ∧
    countPathCompleted (feedEntries P false startTrackingState P).2 = 1 ∧
    (feedEntries P false startTrackingState P).2.getLast? =
      some (.pathCompleted P) ∧
    (feedEntries P false startTrackingState P).1.pathProgress = P.length := by
  have h := feed_along_path P [] none hne hnd (by simp)
  simp only [List.nil_append, List.length_nil] at h
  have hstate : startTrackingState = (⟨true, none, 0, []⟩ : TrackingState) := rfl
  rw [hstate]
  exact ⟨h.2.1, h.2.2.1, h.2.2.2.1, h.2.2.2.2, by rw [h.1]⟩

/-- Counterexample to C1 as stated: on the concrete two-tile path `cPath`,
feeding both coordinates in order emits two correct-step events — one per
matching entry, including the final one — not `|P| - 1 = 1`; the
path-completed event comes in addition to (not instead of) the final
correct-step. -/
theorem C1_counterexample :
    (cPath.Nodup ∧ List.Chain' (fun a b => manhattan a b = 1) cPath) ∧
    countCorrectSteps (feedEntries cPath false startTrackingState cPath).2 = 2 ∧
    countPathCompleted (feedEntries cPath false startTrackingState cPath).2 = 1 ∧
    countCorrectSteps (feedEntries cPath false startTrackingState cPath).2 ≠
      cPath.length - 1 := by
  refine ⟨⟨by decide, ?_⟩, by decide, by decide, by decide⟩
  simp only [cPath, List.chain'_cons, List.chain'_singleton, and_true]
  decide

/-- Witness for the amended C1 at the concrete path `cPath`. -/
theorem C1_witness :
    (cPath ≠ [] ∧ cPath.Nodup) ∧
    countCorrectSteps (feedEntries cPath false startTrackingState cPath).2 =
      cPath.length :=
  ⟨⟨by decide, by decide⟩, (C1_full_walk cPath (by decide) (by decide)).1⟩

/-! ## Path generator groundwork -/

lemma manhattan_comm (a b : GridPos) : manhattan a b = manhattan b a := by
  unfold manhattan
  omega

lemma ne_of_manhattan_one {a b : GridPos} (h : manhattan a b = 1) : a ≠ b := by
  intro he
  subst he
  simp [manhattan] at h

lemma mem_getNeighbors {n : GridPos} {gridX gridZ rows columns : Int}
    (h : n ∈ getNeighbors gridX gridZ rows columns) :
    validB rows columns n = true ∧ manhattan n ⟨gridX, gridZ⟩ = 1 := by
  unfold getNeighbors at h
  rw [List.mem_filterMap] at h
  obtain ⟨d, hd, hn⟩ := h
  fin_cases hd <;>
  · dsimp only at hn
    split at hn
    · rename_i hv
      injection hn with hn
      subst hn
      refine ⟨by simpa [validB] using hv, ?_⟩
      simp [manhattan]
    · exact Option.noConfusion hn

lemma pickNeighbor_mem {l : List GridPos} (h : l ≠ []) (v : Nat) :
    pickNeighbor l v ∈ l := by
  unfold pickNeighbor
  have hlen : 0 < l.length := List.length_pos.mpr h
  have hlt : v % l.length < l.length := Nat.mod_lt _ hlen
  rw [List.getD_eq_getElem l _ hlt]
  exact List.getElem_mem hlt

lemma mem_edgeCells_valid {rows columns : Int} (hr : 1 ≤ rows) (hc : 1 ≤ columns) :
    ∀ p ∈ edgeCells rows columns, validB rows columns p = true := by
  intro p hp
  unfold edgeCells at hp
  simp only [List.mem_append, List.mem_map, List.mem_range] at hp
  rcases hp with ((⟨x, hx, rfl⟩ | ⟨x, hx, rfl⟩) | ⟨i, hi, rfl⟩) | ⟨i, hi, rfl⟩ <;>
    simp [validB, isValidGridPosition] <;> omega

lemma edgeCells_length_pos {rows columns : Int} (hc : 1 ≤ columns) :
    0 < (edgeCells rows columns).length := by
  unfold edgeCells
  simp only [List.length_append, List.length_map, List.length_range]
  omega

lemma getRandomEdgePosition_mem (rows columns : Int) (r : Rand)
    (hlen : 0 < (edgeCells rows columns).length) :
    (getRandomEdgePosition rows columns r).1 ∈ edgeCells rows columns := by
  have hEq : (getRandomEdgePosition rows columns r).1 =
      (edgeCells rows columns).getD
        (randomInt 0 (((edgeCells rows columns).length : Int) - 1) (r.next).1).toNat
        ⟨0, 0⟩ := rfl
  rw [hEq]
  set L := (edgeCells rows columns).length with hL
  have hidx : (randomInt 0 ((L : Int) - 1) (r.next).1).toNat < L := by
    unfold randomInt
    have h1 : (0 : Int) ≤ ((r.next).1 : Int) % ((L : Int) - 1 - 0 + 1) :=
      Int.emod_nonneg _ (by omega)
    have h2 : ((r.next).1 : Int) % ((L : Int) - 1 - 0 + 1) < (L : Int) := by
      have := Int.emod_lt_of_pos ((r.next).1 : Int)
        (b := (L : Int) - 1 - 0 + 1) (by omega)
      omega
    omega
  rw [List.getD_eq_getElem _ _ hidx]
  exact List.getElem_mem hidx

lemma getRandomEdgePosition_valid (rows columns : Int) (r : Rand)
    (hr : 1 ≤ rows) (hc : 1 ≤ columns) :
    validB rows columns (getRandomEdgePosition rows columns r).1 = true :=
  mem_edgeCells_valid hr hc _
    (getRandomEdgePosition_mem rows columns r (edgeCells_length_pos hc))

lemma mem_validNeighbors {n c : GridPos} {path : List GridPos} {rows columns : Int}
    (h : n ∈ (getNeighbors c.x c.z rows columns).filter fun m => decide (m ∉ path)) :
    (validB rows columns n = true ∧ manhattan n c = 1) ∧ n ∉ path := by
  rw [List.mem_filter] at h
  refine ⟨?_, of_decide_eq_true h.2⟩
  exact mem_getNeighbors h.1

/-- The attempt loop preserves the reversed-walk invariant: every branch
(extension to an unvisited in-bounds neighbour, backtrack, restart from an
edge cell) keeps the path connected, duplicate-free, in bounds, nonempty
and within the length bound. -/
lemma attemptLoop_revWalkInv (rows columns pathLength : Int)
    (hr : 1 ≤ rows) (hc : 1 ≤ columns) :
    ∀ (fuel : Nat) (path : List GridPos) (r : Rand),
      revWalkInv rows columns (max 1 pathLength.toNat) path →
      revWalkInv rows columns (max 1 pathLength.toNat)
        (attemptLoop rows columns pathLength fuel path r).1 := by
  intro fuel
  induction fuel with
  | zero => intro path r h; exact h
  | succ n ih =>
    intro path r h
    by_cases hcond : (path.length : Int) < pathLength
    · rcases path with _ | ⟨c, rest⟩
      · exact absurd rfl h.2.2.2.1
      · simp only [attemptLoop, if_pos hcond]
        split
        · split
          · apply ih
            refine ⟨List.chain'_singleton _, List.nodup_singleton _, ?_,
              by simp, ?_⟩
            · intro q hq
              rw [List.mem_singleton] at hq
              subst hq
              exact getRandomEdgePosition_valid rows columns r hr hc
            · simp
          · rename_i hrest
            apply ih
            obtain ⟨hch, hnd, hb, -, hlen⟩ := h
            refine ⟨hch.tail, hnd.of_cons,
              fun q hq => hb q (List.mem_cons_of_mem _ hq), hrest, ?_⟩
            simp only [List.length_cons] at hlen
            omega
        · rename_i hvn
          apply ih
          obtain ⟨hch, hnd, hb, -, hlen⟩ := h
          have hmem := pickNeighbor_mem hvn r.next.1
          have hprops := mem_validNeighbors hmem
          refine ⟨List.chain'_cons.mpr ⟨hprops.1.2, hch⟩,
            List.nodup_cons.mpr ⟨hprops.2, hnd⟩, ?_, by simp, ?_⟩
          · intro q hq
            rcases List.mem_cons.mp hq with rfl | hq
            · exact hprops.1.1
            · exact hb q hq
          · have hlt : ((c :: rest).length : Int) < pathLength := hcond
            simp only [List.length_cons] at hlt ⊢
            omega
    · simp only [attemptLoop, if_neg hcond]
      exact h

/-- The attempt loop never shrinks the path to empty. -/
lemma attemptLoop_ne (rows columns pathLength : Int) :
    ∀ (fuel : Nat) (path : List GridPos) (r : Rand), path ≠ [] →
      (attemptLoop rows columns pathLength fuel path r).1 ≠ [] := by
  intro fuel
  induction fuel with
  | zero => intro path r h; exact h
  | succ n ih =>
    intro path r h
    by_cases hcond : (path.length : Int) < pathLength
    · rcases path with _ | ⟨c, rest⟩
      · exact absurd rfl h
      · simp only [attemptLoop, if_pos hcond]
        split
        · split
          · exact ih _ _ (by simp)
          · rename_i hrest
            exact ih _ _ hrest
        · exact ih _ _ (by simp)
    · simp only [attemptLoop, if_neg hcond]
      exact h

/-- The attempt loop never changes the walk's origin: backtracking stops at
the start (the restart branch is unreachable whenever the start tile has at
least one neighbour, or the requested length is at most 1 so the loop body
never runs). -/
lemma attemptLoop_getLast (rows columns pathLength : Int) (start : GridPos)
    (hstart : (2 : Int) ≤ pathLength → getNeighbors start.x start.z rows columns ≠ []) :
    ∀ (fuel : Nat) (path : List GridPos) (r : Rand), path ≠ [] →
      path.getLast? = some start →
      (attemptLoop rows columns pathLength fuel path r).1.getLast? = some start := by
  intro fuel
  induction fuel with
  | zero => intro path r _ hl; exact hl
  | succ n ih =>
    intro path r hne hl
    by_cases hcond : (path.length : Int) < pathLength
    · rcases path with _ | ⟨c, rest⟩
      · exact absurd rfl hne
      · simp only [attemptLoop, if_pos hcond]
        split
        · rename_i hvn
          split
          · rename_i hrest
            exfalso
            subst hrest
            have hcs : c = start := by simpa using hl
            subst hcs
            have hpl : (2 : Int) ≤ pathLength := by
              simp only [List.length_singleton, Nat.cast_one] at hcond
              omega
            rcases List.exists_mem_of_ne_nil _ (hstart hpl) with ⟨m, hm⟩
            have hprops := mem_getNeighbors hm
            have hmm : m ∈ (getNeighbors c.x c.z rows columns).filter
                fun q => decide (q ∉ [c]) := by
              rw [List.mem_filter]
              refine ⟨hm, decide_eq_true ?_⟩
              simp only [List.mem_singleton]
              exact ne_of_manhattan_one hprops.2
            rw [hvn] at hmm
            exact absurd hmm (List.not_mem_nil m)
          · rename_i hrest
            apply ih _ _ hrest
            rcases rest with _ | ⟨c2, rest2⟩
            · exact absurd rfl hrest
            · rw [List.getLast?_cons_cons] at hl
              exact hl
        · apply ih _ _ (by simp)
          rw [List.getLast?_cons_cons]
          exact hl
    · simp only [attemptLoop, if_neg hcond]
      exact hl

/-- One construction attempt always returns a nonempty path. -/
lemma generatePathAttempt_ne (rows columns pathLength : Int) (sp : Option GridPos)
    (r : Rand) : (generatePathAttempt rows columns pathLength sp r).1 ≠ [] := by
  unfold generatePathAttempt
  dsimp only
  rw [ne_eq, List.reverse_eq_nil_iff]
  exact attemptLoop_ne rows columns pathLength _ _ _ (by simp)

/-- One construction attempt returns a connected, duplicate-free, in-bounds
path of length at most `max 1 pathLength.toNat`. -/
lemma generatePathAttempt_spec (rows columns pathLength : Int) (sp : Option GridPos)
    (r : Rand) (hr : 1 ≤ rows) (hc : 1 ≤ columns)
    (hsp : ∀ s0, sp = some s0 → validB rows columns s0 = true) :
    List.Chain' (fun a b => manhattan a b = 1)
      (generatePathAttempt rows columns pathLength sp r).1 ∧
    (generatePathAttempt rows columns pathLength sp r).1.Nodup ∧
    (∀ q ∈ (generatePathAttempt rows columns pathLength sp r).1,
      validB rows columns q = true) ∧
    (generatePathAttempt rows columns pathLength sp r).1.length ≤
      max 1 pathLength.toNat := by
  have hstart : validB rows columns
      (match sp with
        | some s0 => (s0, r)
        | none => getRandomEdgePosition rows columns r).1 = true := by
    rcases sp with _ | s0
    · exact getRandomEdgePosition_valid rows columns r hr hc
    · exact hsp s0 rfl
  have hinv := attemptLoop_revWalkInv rows columns pathLength hr hc
    (pathLength * 100).toNat
    [(match sp with
       | some s0 => (s0, r)
       | none => getRandomEdgePosition rows columns r).1]
    (match sp with
      | some s0 => (s0, r)
      | none => getRandomEdgePosition rows columns r).2
    ⟨List.chain'_singleton _, List.nodup_singleton _,
     by
       intro q hq
       rw [List.mem_singleton] at hq
       subst hq
       exact hstart,
     by simp, by simp⟩
  obtain ⟨hch, hnd, hb, -, hlen⟩ := hinv
  have hres : (generatePathAttempt rows columns pathLength sp r).1 =
      (attemptLoop rows columns pathLength (pathLength * 100).toNat
        [(match sp with
           | some s0 => (s0, r)
           | none => getRandomEdgePosition rows columns r).1]
        (match sp with
          | some s0 => (s0, r)
          | none => getRandomEdgePosition rows columns r).2).1.reverse := rfl
  rw [hres]
  refine ⟨?_, List.nodup_reverse.mpr hnd, ?_, ?_⟩
  · rw [List.chain'_reverse]
    refine hch.imp ?_
    intro a b hab
    simp only [Function.flip_def]
    rw [manhattan_comm]
    exact hab
  · intro q hq
    exact hb q (List.mem_reverse.mp hq)
  · rw [List.length_reverse]
    exact hlen

/-- The retry loop propagates any property enjoyed by every single attempt
(the returned path is either some attempt's result, or the tracked best,
itself an attempt's result). -/
lemma generatePathRetry_prop (rows columns pathLength : Int) (sp : Option GridPos)
    (P : List GridPos → Prop)
    (hA : ∀ r : Rand, P ((generatePathAttempt rows columns pathLength sp r).1)) :
    ∀ (n : Nat) (best : Option (List GridPos)) (r : Rand),
      ((best = none ∧ 1 ≤ n) ∨ ∃ b, best = some b ∧ P b) →
      P ((generatePathRetry rows columns pathLength sp n best r).1) := by
  intro n
  induction n with
  | zero =>
    intro best r h
    rcases h with ⟨-, h⟩ | ⟨b, rfl, hb⟩
    · omega
    · simpa [generatePathRetry] using hb
  | succ m ih =>
    intro best r h
    simp only [generatePathRetry]
    split
    · exact hA r
    · apply ih
      right
      rcases h with ⟨rfl, -⟩ | ⟨b, rfl, hb⟩
      · exact ⟨_, rfl, hA r⟩
      · simp only [bestOf]
        split
        · exact ⟨_, rfl, hA r⟩
        · exact ⟨b, rfl, hb⟩

/-- `generatePath` unfolds to the retry loop at the clamped length. -/
lemma generatePath_eq_retry (rows columns pathLength : Int) (sp : Option GridPos)
    (r : Rand) :
    generatePath rows columns pathLength sp r =
      generatePathRetry rows columns (min pathLength (rows * columns)) sp 10 none r :=
  rfl

/-- The full generator contract behind C2. -/
lemma generatePath_spec (rows columns pathLength : Int) (sp : Option GridPos)
    (r : Rand) (hr : 1 ≤ rows) (hc : 1 ≤ columns)
    (hsp : ∀ s0, sp = some s0 → validB rows columns s0 = true) :
    pathSpec rows columns (generatePath rows columns pathLength sp r).1 := by
  rw [generatePath_eq_retry]
  have h := generatePathRetry_prop rows columns (min pathLength (rows * columns)) sp
    (fun p => List.Chain' (fun a b => manhattan a b = 1) p ∧ p.Nodup ∧
      (∀ q ∈ p, validB rows columns q = true) ∧
      p.length ≤ max 1 (min pathLength (rows * columns)).toNat)
    (fun r2 => generatePathAttempt_spec rows columns
      (min pathLength (rows * columns)) sp r2 hr hc hsp)
    10 none r (Or.inl ⟨rfl, by omega⟩)
  obtain ⟨h1, h2, h3, h4⟩ := h
  have hrc : (1 : Int) ≤ rows * columns :=
    le_trans (by omega) (mul_le_mul hr hc (by omega) (by omega))
  exact ⟨h1, h2, h3, by omega⟩

/-! ## C2: well-formedness of every generated path -/

/-- C2: every path returned by `generatePath` — for any grid with at least
one row and column, any requested length, any randomness, and any (in-grid)
start position or none — is orthogonally connected with Manhattan distance
exactly 1 between consecutive coordinates, repeats no coordinate, stays in
bounds, and has length at most `rows * columns`. -/
theorem C2_generated_path_wellformed (rows columns pathLength : Int)
    (startPos : Option GridPos) (r : Rand) (hr : 1 ≤ rows) (hc : 1 ≤ columns)
    (hsp : ∀ s0, startPos = some s0 → validB rows columns s0 = true) :
    pathSpec rows columns (generatePath rows columns pathLength startPos r).1 :=
  generatePath_spec rows columns pathLength startPos r hr hc hsp

/-- Witness for C2 on a concrete 2×2 grid with no start position. -/
theorem C2_witness :
    ((1 : Int) ≤ 2 ∧ (1 : Int) ≤ 2 ∧
      (∀ s0 : GridPos, (none : Option GridPos) = some s0 → validB 2 2 s0 = true)) ∧
    pathSpec 2 2 (generatePath 2 2 4 none zeroRand).1 :=
  ⟨⟨by norm_num, by norm_num, fun _ h => Option.noConfusion h⟩,
   C2_generated_path_wellformed 2 2 4 none zeroRand (by norm_num) (by norm_num)
     (fun _ h => Option.noConfusion h)⟩

/-! ## C6: the retry/clamp/best-effort contract of generatePath -/

lemma attemptResults_length (rows columns pathLength : Int) (sp : Option GridPos) :
    ∀ (n : Nat) (r : Rand), (attemptResults rows columns pathLength sp n r).length = n := by
  intro n
  induction n with
  | zero => intro r; rfl
  | succ m ih =>
    intro r
    simp only [attemptResults, List.length_cons, ih]

/-- The retry loop, characterised against the explicit list of attempt
results: it returns the first attempt reaching the requested length, and
otherwise the accumulated best (earliest longest) attempt. -/
lemma generatePathRetry_characterization (rows columns pathLength : Int)
    (sp : Option GridPos) :
    ∀ (n : Nat) (best : Option (List GridPos)) (r : Rand),
      (generatePathRetry rows columns pathLength sp n best r).1 =
        ((attemptResults rows columns pathLength sp n r).find?
            (fun p => decide (pathLength ≤ (p.length : Int)))).getD
          (((attemptResults rows columns pathLength sp n r).foldl bestOf best).getD []) := by
  intro n
  induction n with
  | zero => intro best r; rfl
  | succ m ih =>
    intro best r
    simp only [generatePathRetry, attemptResults]
    by_cases hsucc : pathLength ≤
        ((generatePathAttempt rows columns pathLength sp r).1.length : Int)
    · have hfind : ((generatePathAttempt rows columns pathLength sp r).1 ::
          attemptResults rows columns pathLength sp m
            (generatePathAttempt rows columns pathLength sp r).2).find?
            (fun p => decide (pathLength ≤ (p.length : Int))) =
          some (generatePathAttempt rows columns pathLength sp r).1 :=
        List.find?_cons_of_pos _ (decide_eq_true hsucc)
      rw [if_pos hsucc, hfind]
      rfl
    · have hfind : ((generatePathAttempt rows columns pathLength sp r).1 ::
          attemptResults rows columns pathLength sp m
            (generatePathAttempt rows columns pathLength sp r).2).find?
            (fun p => decide (pathLength ≤ (p.length : Int))) =
          (attemptResults rows columns pathLength sp m
            (generatePathAttempt rows columns pathLength sp r).2).find?
            (fun p => decide (pathLength ≤ (p.length : Int))) :=
        List.find?_cons_of_neg _ (by simpa using hsucc)
      rw [if_neg hsucc, hfind, List.foldl_cons]
      exact ih _ _

/-- `generatePath` always returns a nonempty path. -/
lemma generatePath_ne (rows columns pathLength : Int) (sp : Option GridPos)
    (r : Rand) : (generatePath rows columns pathLength sp r).1 ≠ [] := by
  rw [generatePath_eq_retry]
  exact generatePathRetry_prop rows columns (min pathLength (rows * columns)) sp
    (fun p => p ≠ [])
    (fun r2 => generatePathAttempt_ne rows columns (min pathLength (rows * columns)) sp r2)
    10 none r (Or.inl ⟨rfl, by omega⟩)

/-- C6: `generatePath` clamps the requested length to `rows * columns`,
runs at most 10 attempts, returns the first attempt reaching the clamped
length immediately, otherwise the earliest longest attempt seen; it always
returns a (nonempty) path for a non-empty grid, so shortfall is signalled
only through the returned length. -/
theorem C6_retry_contract (rows columns pathLength : Int) (startPos : Option GridPos)
    (r : Rand) (hr : 1 ≤ rows) (hc : 1 ≤ columns) :
    ((generatePath rows columns pathLength startPos r).1 =
      ((attemptResults rows columns (min pathLength (rows * columns)) startPos 10 r).find?
          (fun p => decide (min pathLength (rows * columns) ≤ (p.length : Int)))).getD
        (((attemptResults rows columns (min pathLength (rows * columns)) startPos
            10 r).foldl bestOf none).getD [])) ∧
    (attemptResults rows columns (min pathLength (rows * columns)) startPos 10 r).length
      = 10 ∧
    (generatePath rows columns pathLength startPos r).1 ≠ [] := by
  refine ⟨?_, attemptResults_length _ _ _ _ 10 r, generatePath_ne _ _ _ _ _⟩
  rw [generatePath_eq_retry]
  exact generatePathRetry_characterization _ _ _ _ 10 none r

/-- Witness for C6 on a concrete 2×2 grid. -/
theorem C6_witness :
    ((1 : Int) ≤ 2 ∧ (1 : Int) ≤ 2) ∧
    (generatePath 2 2 3 none zeroRand).1 ≠ [] :=
  ⟨⟨by norm_num, by norm_num⟩,
   (C6_retry_contract 2 2 3 none zeroRand (by norm_num) (by norm_num)).2.2⟩

/-! ## C5: the anchored start of generatePathFromBottom -/

/-- One attempt with a supplied start returns a path headed by that start:
the loop preserves the walk's origin, and the reversal puts it first. -/
lemma generatePathAttempt_head (rows columns pathLength : Int) (s : GridPos) (r : Rand)
    (hne : (2 : Int) ≤ pathLength → getNeighbors s.x s.z rows columns ≠ []) :
    (generatePathAttempt rows columns pathLength (some s) r).1.head? = some s := by
  have hres : (generatePathAttempt rows columns pathLength (some s) r).1 =
      (attemptLoop rows columns pathLength (pathLength * 100).toNat [s] r).1.reverse :=
    rfl
  rw [hres, List.head?_reverse]
  exact attemptLoop_getLast rows columns pathLength s hne _ [s] r (by simp) (by simp)

/-- The generator with a supplied start returns a path headed by that
start, across all retries. -/
lemma generatePath_head (rows columns pathLength : Int) (s : GridPos) (r : Rand)
    (hne : (2 : Int) ≤ min pathLength (rows * columns) →
      getNeighbors s.x s.z rows columns ≠ []) :
    (generatePath rows columns pathLength (some s) r).1.head? = some s := by
  rw [generatePath_eq_retry]
  exact generatePathRetry_prop rows columns (min pathLength (rows * columns)) (some s)
    (fun p => p.head? = some s)
    (fun r2 => generatePathAttempt_head rows columns _ s r2 hne)
    10 none r (Or.inl ⟨rfl, by omega⟩)

/-- On any grid with at least two cells, the centre cell of the anchored
row has an orthogonal neighbour. -/
lemma center_bottom_has_neighbor (rows columns : Int) (hr : 1 ≤ rows)
    (hc : 1 ≤ columns) (h2 : 2 ≤ rows * columns) :
    getNeighbors (columns / 2) (rows - 1) rows columns ≠ [] := by
  rcases le_or_lt 2 rows with hrow | hrow
  · have hv : isValidGridPosition (columns / 2 + 0) (rows - 1 + -1) rows columns = true := by
      simp only [isValidGridPosition, Bool.and_eq_true, decide_eq_true_eq]
      omega
    have hm : (⟨columns / 2 + 0, rows - 1 + -1⟩ : GridPos) ∈
        getNeighbors (columns / 2) (rows - 1) rows columns := by
      unfold getNeighbors
      refine List.mem_filterMap.mpr ⟨⟨0, -1⟩, by simp, ?_⟩
      dsimp only
      rw [hv]
      simp
    exact List.ne_nil_of_mem hm
  · have hrow1 : rows = 1 := by omega
    have hcol2 : 2 ≤ columns := by
      by_contra hcol
      have : columns = 1 := by omega
      subst this hrow1
      omega
    rcases lt_or_le (columns / 2 + 1) columns with hright | hright
    · have hv : isValidGridPosition (columns / 2 + 1) (rows - 1 + 0) rows columns = true := by
        simp only [isValidGridPosition, Bool.and_eq_true, decide_eq_true_eq]
        omega
      have hm : (⟨columns / 2 + 1, rows - 1 + 0⟩ : GridPos) ∈
          getNeighbors (columns / 2) (rows - 1) rows columns := by
        unfold getNeighbors
        refine List.mem_filterMap.mpr ⟨⟨1, 0⟩, by simp, ?_⟩
        dsimp only
        rw [hv]
        simp
      exact List.ne_nil_of_mem hm
    · have hv : isValidGridPosition (columns / 2 + -1) (rows - 1 + 0) rows columns = true := by
        simp only [isValidGridPosition, Bool.and_eq_true, decide_eq_true_eq]
        omega
      have hm : (⟨columns / 2 + -1, rows - 1 + 0⟩ : GridPos) ∈
          getNeighbors (columns / 2) (rows - 1) rows columns := by
        unfold getNeighbors
        refine List.mem_filterMap.mpr ⟨⟨-1, 0⟩, by simp, ?_⟩
        dsimp only
        rw [hv]
        simp
      exact List.ne_nil_of_mem hm

lemma walksFrom_length (rows columns : Int) (start : GridPos) :
    ∀ (k : Nat), ∀ p ∈ walksFrom rows columns start k, p.length = k + 1 := by
  intro k
  induction k with
  | zero =>
    intro p hp
    simp only [walksFrom, List.mem_singleton] at hp
    subst hp
    rfl
  | succ m ih =>
    intro p hp
    simp only [walksFrom, List.mem_flatMap] at hp
    obtain ⟨q, hq, hpq⟩ := hp
    have hlen := ih q hq
    unfold extendWalk at hpq
    rcases q with _ | ⟨c, rest⟩
    · simp at hpq
    · simp only [List.mem_map] at hpq
      obtain ⟨n, -, rfl⟩ := hpq
      simp only [List.length_cons] at hlen ⊢
      omega

/-- Checked by evaluation: among the (at most four-step) self-avoiding
walks from `(2, 4)` on the 5×5 grid, none is a dead end — the head always
has an unvisited in-bounds neighbour. -/
lemma walks5_no_dead_end :
    ∀ k, k < 4 → ((walksFrom 5 5 ⟨2, 4⟩ k).all fun p =>
      match p with
      | [] => false
      | c :: rest =>
        !((getNeighbors c.x c.z 5 5).filter fun n => decide (n ∉ c :: rest)).isEmpty)
      = true := by
  decide

/-- On the 5×5 grid with requested length 5 and start `(2, 4)`, the loop
always reaches length exactly 5: no dead end can occur before the fifth
tile, so the walk only ever extends. -/
lemma attemptLoop_5x5 :
    ∀ (fuel k : Nat) (path : List GridPos) (r : Rand),
      path ∈ walksFrom 5 5 ⟨2, 4⟩ k → k ≤ 4 → 4 - k ≤ fuel →
      (attemptLoop 5 5 5 fuel path r).1.length = 5 := by
  intro fuel
  induction fuel with
  | zero =>
    intro k path r hmem hk hfuel
    have hlen := walksFrom_length 5 5 ⟨2, 4⟩ k path hmem
    have hk4 : k = 4 := by omega
    subst hk4
    exact hlen
  | succ n ih =>
    intro k path r hmem hk hfuel
    have hlen := walksFrom_length 5 5 ⟨2, 4⟩ k path hmem
    by_cases hk4 : k = 4
    · subst hk4
      have hcond : ¬ ((path.length : Int) < 5) := by
        rw [hlen]
        norm_num
      simp only [attemptLoop, if_neg hcond]
      exact hlen
    · have hklt : k < 4 := by omega
      have hcond : ((path.length : Int) < 5) := by
        rw [hlen]
        push_cast
        omega
      rcases path with _ | ⟨c, rest⟩
      · simp at hlen
      · simp only [attemptLoop, if_pos hcond]
        have hall := walks5_no_dead_end k hklt
        rw [List.all_eq_true] at hall
        have hvn := hall _ hmem
        simp only [Bool.not_eq_true', List.isEmpty_eq_false_iff_exists_mem] at hvn
        have hvne : ((getNeighbors c.x c.z 5 5).filter
            fun n => decide (n ∉ c :: rest)) ≠ [] := by
          obtain ⟨a, ha⟩ := hvn
          exact List.ne_nil_of_mem ha
        split
        · rename_i hvempty
          exact absurd hvempty hvne
        · apply ih (k + 1) _ _ ?_ (by omega) (by omega)
          refine List.mem_flatMap.mpr ⟨c :: rest, hmem, ?_⟩
          unfold extendWalk
          rw [List.mem_map]
          exact ⟨_, pickNeighbor_mem hvne (r.next).1, rfl⟩

/-- The concrete 5×5 scenario: the generator returns a path of length
exactly 5 (the first attempt already succeeds and is returned). -/
lemma generatePathFromBottom_5x5_len (r : Rand) :
    (generatePathFromBottom 5 5 5 r).1.length = 5 := by
  have h1 : generatePathFromBottom 5 5 5 r =
      generatePathRetry 5 5 5 (some ⟨2, 4⟩) 10 none r := rfl
  have hatt : (generatePathAttempt 5 5 5 (some ⟨2, 4⟩) r).1.length = 5 := by
    have hres : (generatePathAttempt 5 5 5 (some ⟨2, 4⟩) r).1 =
        (attemptLoop 5 5 5 ((5 * 100 : Int)).toNat [⟨2, 4⟩] r).1.reverse := rfl
    rw [hres, List.length_reverse]
    exact attemptLoop_5x5 ((5 * 100 : Int)).toNat 0 [⟨2, 4⟩] r
      (by simp [walksFrom]) (by omega) (by norm_num)
  have hcond : (5 : Int) ≤ ((generatePathAttempt 5 5 5 (some ⟨2, 4⟩) r).1.length : Int) := by
    rw [hatt]
    norm_num
  rw [h1, show (10 : Nat) = 9 + 1 from rfl]
  simp only [generatePathRetry]
  rw [if_pos hcond]
  exact hatt

/-- C5: `generatePathFromBottom` always returns a path whose first element
is the horizontal centre of the row nearest the placement anchor,
`(⌊columns / 2⌋, rows - 1)` — the dead-end restart branch that re-picks a
random edge start is unreachable from an anchored start; and on the
concrete 5×5 grid with desired length 5 it returns a 5-element connected
path beginning at `(2, 4)`. -/
theorem C5_anchored_start (rows columns pathLength : Int) (r r2 : Rand)
    (hr : 1 ≤ rows) (hc : 1 ≤ columns) :
    (generatePathFromBottom rows columns pathLength r).1.head? =
      some ⟨columns / 2, rows - 1⟩ ∧
    ((generatePathFromBottom 5 5 5 r2).1.length = 5 ∧
     List.Chain' (fun a b => manhattan a b = 1) (generatePathFromBottom 5 5 5 r2).1 ∧
     (generatePathFromBottom 5 5 5 r2).1.head? = some ⟨2, 4⟩) := by
  refine ⟨?_, generatePathFromBottom_5x5_len r2, ?_, ?_⟩
  · have h1 : generatePathFromBottom rows columns pathLength r =
        generatePath rows columns pathLength (some ⟨columns / 2, rows - 1⟩) r := rfl
    rw [h1]
    apply generatePath_head
    intro h2
    have h2rc : (2 : Int) ≤ rows * columns := by omega
    exact center_bottom_has_neighbor rows columns hr hc h2rc
  · have h1 : generatePathFromBottom 5 5 5 r2 =
        generatePath 5 5 5 (some ⟨2, 4⟩) r2 := rfl
    rw [h1]
    exact (generatePath_spec 5 5 5 (some ⟨2, 4⟩) r2 (by norm_num) (by norm_num)
      (by intro s0 h; injection h with h; subst h; decide)).1
  · have h1 : generatePathFromBottom 5 5 5 r2 =
        generatePath 5 5 5 (some ⟨2, 4⟩) r2 := rfl
    rw [h1]
    apply generatePath_head
    intro _
    decide

/-- Witness for C5 at the concrete 5×5 scenario. -/
theorem C5_witness :
    ((1 : Int) ≤ 5 ∧ (1 : Int) ≤ 5) ∧
    (generatePathFromBottom 5 5 5 zeroRand).1.length = 5 ∧
    (generatePathFromBottom 5 5 5 zeroRand).1.head? = some ⟨2, 4⟩ :=
  ⟨⟨by norm_num, by norm_num⟩,
   (C5_anchored_start 5 5 5 zeroRand zeroRand (by norm_num) (by norm_num)).2.1,
   (C5_anchored_start 5 5 5 zeroRand zeroRand (by norm_num) (by norm_num)).2.2.2⟩

end MemoryGrid
